import Mathlib

/-!
# Verification of the `unicode_escape` decoder

Shallow embedding of `src/lib.rs` (functions `decode`, `escape_hex`,
`decode_unicode`) and `src/error.rs` (enum `DecodeError`).

The Rust code scans the input string character by character with a peekable
iterator.  We model the iterator as a `List Char`: `next()` is pattern
matching on the head, and a sub-parser that advances the shared iterator is
modelled as a function returning the decoded character together with the
remaining list.
-/

namespace UnicodeEscape

/-- Embedding of `DecodeError` from `src/error.rs`: a closed enumeration of
the three error kinds. -/
inductive DecodeError where
  | invalidEscape
  | invalidHexChar
  | invalidUnicode
deriving DecidableEq, Repr

/-- Embedding of Rust `char::is_ascii_hexdigit`: `0`-`9`, `a`-`f`, `A`-`F`. -/
def isAsciiHexdigit (c : Char) : Bool :=
  (48 ≤ c.toNat && c.toNat ≤ 57) ||
  (97 ≤ c.toNat && c.toNat ≤ 102) ||
  (65 ≤ c.toNat && c.toNat ≤ 70)

/-- Numeric value of an ASCII hex digit (matching `char::to_digit(16)` on
digits; unspecified garbage elsewhere, only ever used on hex digits). -/
def hexDigitToNat (c : Char) : Nat :=
  if 48 ≤ c.toNat && c.toNat ≤ 57 then c.toNat - 48
  else if 97 ≤ c.toNat && c.toNat ≤ 102 then c.toNat - 87
  else c.toNat - 55

/-- Value of a list of hex digits read left to right in base 16, the
accumulation performed by Rust `from_str_radix`. -/
def hexNum (s : List Char) : Nat :=
  s.foldl (fun a c => a * 16 + hexDigitToNat c) 0

/-- Embedding of Rust `uN::from_str_radix(s, 16)` for an unsigned integer
type with maximum value `maxVal`: an optional leading `+` sign followed by
at least one digit of the radix; any other character, an empty digit string,
or overflow past `maxVal` is an error (`none`). -/
def from_str_radix16 (s : List Char) (maxVal : Nat) : Option Nat :=
  let digits := match s with
    | c :: rest => if c = '+' then rest else c :: rest
    | [] => []
  if digits = [] then none
  else if digits.all isAsciiHexdigit then
    if hexNum digits ≤ maxVal then some (hexNum digits) else none
  else none

/-- Embedding of Rust `char::from_u32`: `Some` exactly when the value is a
Unicode scalar value (not a surrogate, at most `0x10FFFF`). -/
def charFromU32 (v : Nat) : Option Char :=
  if v < 0xd800 ∨ (0xdfff < v ∧ v < 0x110000) then some (Char.ofNat v)
  else none

/-- Embedding of `escape_hex` from `src/lib.rs`: consume two characters
(fewer remaining is `InvalidHexChar`), parse them with
`u8::from_str_radix(_, 16)` (failure is `InvalidHexChar`), and convert the
byte with `char::from`.  Returns the decoded character and the remaining
input. -/
def escape_hex (chars : List Char) : Except DecodeError (Char × List Char) :=
  match chars with
  | c1 :: c2 :: rest =>
    match from_str_radix16 [c1, c2] 255 with
    | some v => .ok (Char.ofNat v, rest)
    | none => .error .invalidHexChar
  | _ => .error .invalidHexChar

/-- Embedding of the hex-digit gathering loop of `decode_unicode`
(`while let Some(&c) = chars.peek() { if c.is_ascii_hexdigit() { push;
next } else { break } }`): returns the gathered run and the remaining
input, the peeked non-hex character left unconsumed. -/
def gatherHex : List Char → List Char × List Char
  | [] => ([], [])
  | c :: rest =>
    if isAsciiHexdigit c then
      let p := gatherHex rest
      (c :: p.1, p.2)
    else ([], c :: rest)

/-- Embedding of `decode_unicode` from `src/lib.rs`: require `{`, gather a
run of hex digits by peeking, require `}`, parse the run with
`u32::from_str_radix(_, 16)` and convert with `char::from_u32`; every
failure is `InvalidUnicode`.  Returns the decoded character and the
remaining input. -/
def decode_unicode (chars : List Char) : Except DecodeError (Char × List Char) :=
  match chars with
  | b :: rest =>
    if b = '{' then
      match (gatherHex rest).2 with
      | d :: rest3 =>
        if d = '}' then
          match from_str_radix16 (gatherHex rest).1 4294967295 with
          | some v =>
            match charFromU32 v with
            | some c => .ok (c, rest3)
            | none => .error .invalidUnicode
          | none => .error .invalidUnicode
        else .error .invalidUnicode
      | [] => .error .invalidUnicode
    else .error .invalidUnicode
  | [] => .error .invalidUnicode

theorem gatherHex_eq (s : List Char) :
    gatherHex s = (s.takeWhile isAsciiHexdigit, s.dropWhile isAsciiHexdigit) := by
  induction s with
  | nil => rfl
  | cons c rest ih =>
    by_cases h : isAsciiHexdigit c
    · simp [gatherHex, List.takeWhile_cons, List.dropWhile_cons, h, ih]
    · simp [gatherHex, List.takeWhile_cons, List.dropWhile_cons, h]

theorem gatherHex_snd_length (s : List Char) :
    (gatherHex s).2.length ≤ s.length := by
  rw [gatherHex_eq]
  exact (List.dropWhile_suffix isAsciiHexdigit).length_le

theorem escape_hex_length (s : List Char) (p : Char × List Char)
    (h : escape_hex s = .ok p) : p.2.length ≤ s.length := by
  rw [escape_hex.eq_def] at h
  split at h
  · split at h
    · cases h; simp only [List.length_cons]; omega
    · cases h
  · cases h

theorem decode_unicode_length (s : List Char) (p : Char × List Char)
    (h : decode_unicode s = .ok p) : p.2.length ≤ s.length := by
  rw [decode_unicode.eq_def] at h
  split at h
  · rename_i b rest
    split at h
    · split at h
      · rename_i d rest3 hg
        split at h
        · split at h
          · split at h
            · cases h
              have h1 : rest3.length < (gatherHex rest).2.length := by
                rw [hg]; simp
              have h2 := gatherHex_snd_length rest
              simp only [List.length_cons]
              omega
            · cases h
          · cases h
        · cases h
      · cases h
    · cases h
  · cases h

/-- Embedding of `decode` from `src/lib.rs`: the scanning loop.  A
non-backslash character is appended verbatim; after a backslash the next
character (the tag) selects a fixed substitution, delegation to
`escape_hex` or `decode_unicode`, or the `InvalidEscape` failure (also hit
when the input ends right after the backslash).  The result accumulated so
far is prepended to the decoding of the remaining input, so an error
anywhere discards all output. -/
def decode (input : List Char) : Except DecodeError (List Char) :=
  match input with
  | [] => .ok []
  | c :: rest =>
    if c = '\\' then
      match rest with
      | [] => .error .invalidEscape
      | t :: rest2 =>
        if t = 't' then (decode rest2).map (fun out => '\t' :: out)
        else if t = 'n' then (decode rest2).map (fun out => '\n' :: out)
        else if t = 'r' then (decode rest2).map (fun out => '\r' :: out)
        else if t = '0' then (decode rest2).map (fun out => '\x00' :: out)
        else if t = '\\' then (decode rest2).map (fun out => '\\' :: out)
        else if t = '"' then (decode rest2).map (fun out => '"' :: out)
        else if t = '\'' then (decode rest2).map (fun out => '\'' :: out)
        else if t = 'x' then
          match hx : escape_hex rest2 with
          | .ok p => (decode p.2).map (fun out => p.1 :: out)
          | .error e => .error e
        else if t = 'u' then
          match hu : decode_unicode rest2 with
          | .ok p => (decode p.2).map (fun out => p.1 :: out)
          | .error e => .error e
        else .error .invalidEscape
    else (decode rest).map (fun out => c :: out)
termination_by input.length
decreasing_by
  all_goals simp only [List.length_cons]
  · omega
  · omega
  · omega
  · omega
  · omega
  · omega
  · omega
  · have := escape_hex_length _ _ hx; omega
  · have := decode_unicode_length _ _ hu; omega
  · omega

/-! ### Helper lemmas -/

theorem hexDigitToNat_le (c : Char) (h : isAsciiHexdigit c = true) :
    hexDigitToNat c ≤ 15 := by
  unfold isAsciiHexdigit at h
  simp only [Bool.or_eq_true, Bool.and_eq_true, decide_eq_true_eq] at h
  unfold hexDigitToNat
  split
  · rename_i h1
    simp only [Bool.and_eq_true, decide_eq_true_eq] at h1
    omega
  · split
    · rename_i h1 h2
      simp only [Bool.and_eq_true, decide_eq_true_eq] at h2
      omega
    · rename_i h1 h2
      simp only [Bool.and_eq_true, decide_eq_true_eq] at h1 h2
      omega

theorem hexNum_two (c1 c2 : Char) :
    hexNum [c1, c2] = 16 * hexDigitToNat c1 + hexDigitToNat c2 := by
  simp only [hexNum, List.foldl]
  omega

theorem not_hexdigit_plus : isAsciiHexdigit '+' = false := by decide

theorem from_str_radix16_all_hex (s : List Char) (m : Nat)
    (h : s.all isAsciiHexdigit = true) :
    from_str_radix16 s m =
      if s = [] then none
      else if hexNum s ≤ m then some (hexNum s) else none := by
  match s with
  | [] => simp [from_str_radix16]
  | c :: cs =>
    have hc : isAsciiHexdigit c = true := by
      simp only [List.all_cons, Bool.and_eq_true] at h
      exact h.1
    have hcp : ¬(c = '+') := by
      intro hp
      rw [hp] at hc
      exact absurd hc (by decide)
    simp [from_str_radix16, hcp, h]

theorem escape_hex_of_hexdigits (c1 c2 : Char) (rest : List Char)
    (h1 : isAsciiHexdigit c1 = true) (h2 : isAsciiHexdigit c2 = true) :
    escape_hex (c1 :: c2 :: rest) =
      .ok (Char.ofNat (16 * hexDigitToNat c1 + hexDigitToNat c2), rest) := by
  have hall : ([c1, c2] : List Char).all isAsciiHexdigit = true := by
    simp [h1, h2]
  have hle : 16 * hexDigitToNat c1 + hexDigitToNat c2 ≤ 255 := by
    have := hexDigitToNat_le c1 h1
    have := hexDigitToNat_le c2 h2
    omega
  simp [escape_hex, from_str_radix16_all_hex [c1, c2] 255 hall, hexNum_two, hle]

theorem gatherHex_hex_run (run : List Char) (c : Char) (t : List Char)
    (hall : run.all isAsciiHexdigit = true) (hc : isAsciiHexdigit c = false) :
    gatherHex (run ++ c :: t) = (run, c :: t) := by
  rw [gatherHex_eq]
  have hp : ∀ a ∈ run, isAsciiHexdigit a := List.all_eq_true.mp hall
  rw [List.takeWhile_append_of_pos hp, List.dropWhile_append_of_pos hp]
  simp [List.takeWhile_cons, List.dropWhile_cons, hc]

theorem char_toNat_ofNat (v : Nat) (h : v.isValidChar) :
    (Char.ofNat v).toNat = v := by
  simp only [Char.ofNat, dif_pos h, Char.ofNatAux, Char.toNat]
  simp [UInt32.toNat]

theorem decode_nil_eq : decode [] = .ok [] := by
  rw [decode.eq_def]

theorem decode_cons_plain (c : Char) (s : List Char) (h : ¬(c = '\\')) :
    decode (c :: s) = (decode s).map (fun out => c :: out) := by
  rw [decode.eq_def]
  simp [h]

theorem decode_x_ok (s : List Char) (p : Char × List Char)
    (h : escape_hex s = .ok p) :
    decode ('\\' :: 'x' :: s) = (decode p.2).map (fun out => p.1 :: out) := by
  simp +decide [decode]
  split
  · rename_i p' hx
    rw [h] at hx
    cases hx
    rfl
  · rename_i e' hx
    rw [h] at hx
    cases hx

theorem decode_x_err (s : List Char) (e : DecodeError)
    (h : escape_hex s = .error e) :
    decode ('\\' :: 'x' :: s) = .error e := by
  simp +decide [decode]
  split
  · rename_i p' hx
    rw [h] at hx
    cases hx
  · rename_i e' hx
    rw [h] at hx
    cases hx
    rfl

theorem decode_u_ok (s : List Char) (p : Char × List Char)
    (h : decode_unicode s = .ok p) :
    decode ('\\' :: 'u' :: s) = (decode p.2).map (fun out => p.1 :: out) := by
  simp +decide [decode]
  split
  · rename_i p' hu
    rw [h] at hu
    cases hu
    rfl
  · rename_i e' hu
    rw [h] at hu
    cases hu

theorem decode_u_err (s : List Char) (e : DecodeError)
    (h : decode_unicode s = .error e) :
    decode ('\\' :: 'u' :: s) = .error e := by
  simp +decide [decode]
  split
  · rename_i p' hu
    rw [h] at hu
    cases hu
  · rename_i e' hu
    rw [h] at hu
    cases hu
    rfl

theorem decode_tag_t (s : List Char) :
    decode ('\\' :: 't' :: s) = (decode s).map (fun out => '\t' :: out) := by
  simp +decide [decode]

theorem decode_tag_n (s : List Char) :
    decode ('\\' :: 'n' :: s) = (decode s).map (fun out => '\n' :: out) := by
  simp +decide [decode]

theorem decode_tag_r (s : List Char) :
    decode ('\\' :: 'r' :: s) = (decode s).map (fun out => '\r' :: out) := by
  simp +decide [decode]

theorem decode_tag_zero (s : List Char) :
    decode ('\\' :: '0' :: s) = (decode s).map (fun out => '\x00' :: out) := by
  simp +decide [decode]

theorem decode_tag_backslash (s : List Char) :
    decode ('\\' :: '\\' :: s) = (decode s).map (fun out => '\\' :: out) := by
  simp +decide [decode]

theorem decode_tag_dquote (s : List Char) :
    decode ('\\' :: '"' :: s) = (decode s).map (fun out => '"' :: out) := by
  simp +decide [decode]

theorem decode_tag_squote (s : List Char) :
    decode ('\\' :: '\'' :: s) = (decode s).map (fun out => '\'' :: out) := by
  simp +decide [decode]

theorem decode_bad_tag (t : Char) (rest : List Char)
    (h1 : ¬(t = 't')) (h2 : ¬(t = 'n')) (h3 : ¬(t = 'r')) (h4 : ¬(t = '0'))
    (h5 : ¬(t = '\\')) (h6 : ¬(t = '"')) (h7 : ¬(t = '\'')) (h8 : ¬(t = 'x'))
    (h9 : ¬(t = 'u')) :
    decode ('\\' :: t :: rest) = .error DecodeError.invalidEscape := by
  rw [decode.eq_def]
  simp [h1, h2, h3, h4, h5, h6, h7, h8, h9]

theorem decode_backslash_z : decode ['\\', 'z'] = .error DecodeError.invalidEscape := by
  rw [decode.eq_def]
  simp

theorem decode_lone_backslash : decode ['\\'] = .error DecodeError.invalidEscape := by
  rw [decode.eq_def]
  simp

theorem decode_single_a : decode ['a'] = .ok ['a'] := by
  rw [decode_cons_plain 'a' [] (by decide), decode_nil_eq]
  rfl

theorem map_cons_eq_ok (l out : List Char) (ch : Char)
    (h : (decode l).map (fun o => ch :: o) = .ok out) :
    ∃ o, decode l = .ok o ∧ out = ch :: o := by
  cases hd : decode l with
  | error e =>
    rw [hd] at h
    cases h
  | ok o =>
    rw [hd] at h
    cases h
    exact ⟨o, rfl, rfl⟩

theorem decode_append_plain (pre s : List Char) (h : ∀ c ∈ pre, ¬(c = '\\')) :
    decode (pre ++ s) = (decode s).map (fun out => pre ++ out) := by
  induction pre with
  | nil =>
    cases hd : decode s <;> simp [Except.map, hd]
  | cons c pre ih =>
    have hc : ¬(c = '\\') := h c (by simp)
    have hrest : ∀ d ∈ pre, ¬(d = '\\') := fun d hd => h d (by simp [hd])
    rw [List.cons_append, decode_cons_plain c (pre ++ s) hc, ih hrest]
    cases hd : decode s <;> simp [Except.map]

/-! ### Claim theorems -/

/-- C1: whenever `decode` encounters a backslash whose tag character is one
of `t`, `n`, `r`, `0`, backslash, double-quote, or single-quote, it appends
exactly the fixed substitution character TAB (U+0009), LF (U+000A),
CR (U+000D), NUL (U+0000), `\`, `"`, or `'` respectively to the output, and
decoding continues with the rest of the input. -/
theorem decode_simple_escape_substitutions (s : List Char) :
    (decode ('\\' :: 't' :: s) = (decode s).map (fun out => '\t' :: out) ∧ '\t'.toNat = 9) ∧
    (decode ('\\' :: 'n' :: s) = (decode s).map (fun out => '\n' :: out) ∧ '\n'.toNat = 10) ∧
    (decode ('\\' :: 'r' :: s) = (decode s).map (fun out => '\r' :: out) ∧ '\r'.toNat = 13) ∧
    (decode ('\\' :: '0' :: s) = (decode s).map (fun out => '\x00' :: out) ∧ '\x00'.toNat = 0) ∧
    (decode ('\\' :: '\\' :: s) = (decode s).map (fun out => '\\' :: out) ∧ '\\'.toNat = 92) ∧
    (decode ('\\' :: '"' :: s) = (decode s).map (fun out => '"' :: out) ∧ '"'.toNat = 34) ∧
    (decode ('\\' :: '\'' :: s) = (decode s).map (fun out => '\'' :: out) ∧ '\''.toNat = 39) := by
  refine ⟨⟨?_, by decide⟩, ⟨?_, by decide⟩, ⟨?_, by decide⟩, ⟨?_, by decide⟩,
    ⟨?_, by decide⟩, ⟨?_, by decide⟩, ⟨?_, by decide⟩⟩ <;>
    simp +decide [decode]

/-- C5: an input containing no backslash decodes successfully to itself,
every character appended verbatim in order. -/
theorem decode_no_backslash (s : List Char) (h : ∀ c ∈ s, ¬(c = '\\')) :
    decode s = .ok s := by
  induction s with
  | nil => exact decode_nil_eq
  | cons c rest ih =>
    have hc : ¬(c = '\\') := h c (by simp)
    have hr : ∀ d ∈ rest, ¬(d = '\\') := fun d hd => h d (by simp [hd])
    rw [decode_cons_plain c rest hc, ih hr]
    rfl

theorem decode_no_backslash_witness :
    decode ['a', 'b', 'c'] = .ok ['a', 'b', 'c'] :=
  decode_no_backslash ['a', 'b', 'c'] (by decide)

/-- C6: when the scan reaches a backslash followed by a character that is
not one of the nine recognized tags, `decode` fails with `InvalidEscape`
whatever else follows, and an input ending in a lone trailing backslash
(here: after a backslash-free prefix) also fails with `InvalidEscape`. -/
theorem decode_invalid_escape (pre : List Char) (t : Char) (rest : List Char)
    (hpre : ∀ c ∈ pre, ¬(c = '\\'))
    (h : t ∉ (['t', 'n', 'r', '0', '\\', '"', '\'', 'x', 'u'] : List Char)) :
    decode (pre ++ '\\' :: t :: rest) = .error .invalidEscape ∧
    decode (pre ++ ['\\']) = .error .invalidEscape := by
  have hbad : decode ('\\' :: t :: rest) = .error DecodeError.invalidEscape := by
    simp only [List.mem_cons, List.not_mem_nil, or_false, not_or] at h
    obtain ⟨h1, h2, h3, h4, h5, h6, h7, h8, h9⟩ := h
    exact decode_bad_tag t rest h1 h2 h3 h4 h5 h6 h7 h8 h9
  constructor
  · rw [decode_append_plain pre _ hpre, hbad]
    rfl
  · rw [decode_append_plain pre _ hpre, decode_lone_backslash]
    rfl

theorem decode_invalid_escape_witness :
    decode (['a'] ++ '\\' :: 'z' :: ['b']) = .error DecodeError.invalidEscape ∧
    decode (['a'] ++ ['\\']) = .error DecodeError.invalidEscape :=
  decode_invalid_escape ['a'] 'z' ['b'] (by decide) (by decide)

/-- C7: a `\x` escape whose two following characters are hex digits appends
exactly one character whose scalar value is the parsed byte value, the
value is in `[0, 255]`, and the byte-to-character conversion cannot fail
(the scalar value of the appended character really is that value). -/
theorem decode_hex_escape (c1 c2 : Char) (rest : List Char)
    (h1 : isAsciiHexdigit c1 = true) (h2 : isAsciiHexdigit c2 = true) :
    decode ('\\' :: 'x' :: c1 :: c2 :: rest) =
      (decode rest).map
        (fun out => Char.ofNat (16 * hexDigitToNat c1 + hexDigitToNat c2) :: out) ∧
    16 * hexDigitToNat c1 + hexDigitToNat c2 ≤ 255 ∧
    (Char.ofNat (16 * hexDigitToNat c1 + hexDigitToNat c2)).toNat =
      16 * hexDigitToNat c1 + hexDigitToNat c2 := by
  have hle : 16 * hexDigitToNat c1 + hexDigitToNat c2 ≤ 255 := by
    have := hexDigitToNat_le c1 h1
    have := hexDigitToNat_le c2 h2
    omega
  exact ⟨decode_x_ok _ _ (escape_hex_of_hexdigits c1 c2 rest h1 h2), hle,
    char_toNat_ofNat _ (Or.inl (by omega))⟩

theorem decode_hex_escape_witness :
    decode ('\\' :: 'x' :: '4' :: '1' :: ([] : List Char)) =
      (decode ([] : List Char)).map
        (fun out => Char.ofNat (16 * hexDigitToNat '4' + hexDigitToNat '1') :: out) ∧
    16 * hexDigitToNat '4' + hexDigitToNat '1' ≤ 255 ∧
    (Char.ofNat (16 * hexDigitToNat '4' + hexDigitToNat '1')).toNat =
      16 * hexDigitToNat '4' + hexDigitToNat '1' :=
  decode_hex_escape '4' '1' [] (by decide) (by decide)

/-- C2, counterexample: the two characters after `\x` in `\x+5` contain
`+`, which is not a hex digit, yet `decode` succeeds (Rust
`u8::from_str_radix` accepts an optional leading `+` sign), so the claim
that any non-hex character among the two makes `decode` fail with
`InvalidHexChar` is false. -/
theorem escape_hex_plus_sign_counterexample :
    decode ['\\', 'x', '+', '5'] = .ok [Char.ofNat 5] ∧
    ¬(decode ['\\', 'x', '+', '5'] = .error DecodeError.invalidHexChar) ∧
    isAsciiHexdigit '+' = false := by
  have h5 : escape_hex ['+', '5'] = .ok (Char.ofNat 5, []) := by rfl
  have hok : decode ['\\', 'x', '+', '5'] = .ok [Char.ofNat 5] := by
    rw [decode_x_ok _ _ h5, decode_nil_eq]
    rfl
  refine ⟨hok, ?_, by decide⟩
  rw [hok]
  intro hcontra
  cases hcontra

/-- C2 as amended: a `\x` escape fails with `InvalidHexChar` exactly when
fewer than 2 characters remain after the `x`, or the 2 consumed characters
do not parse under `u8::from_str_radix`, which accepts two hex digits or a
leading `+` sign followed by one hex digit. -/
theorem escape_hex_invalid_iff (c1 c2 : Char) (r : List Char) :
    (escape_hex (c1 :: c2 :: r) = .error .invalidHexChar ↔
      ¬((isAsciiHexdigit c1 = true ∨ c1 = '+') ∧ isAsciiHexdigit c2 = true)) ∧
    escape_hex [] = .error .invalidHexChar ∧
    escape_hex [c1] = .error .invalidHexChar ∧
    (escape_hex (c1 :: c2 :: r) = .error .invalidHexChar →
      decode ('\\' :: 'x' :: c1 :: c2 :: r) = .error .invalidHexChar) := by
  refine ⟨?_, rfl, rfl, decode_x_err _ _⟩
  by_cases hp : c1 = '+'
  · subst hp
    by_cases h2 : isAsciiHexdigit c2 = true
    · have hle : hexDigitToNat c2 ≤ 255 := le_trans (hexDigitToNat_le c2 h2) (by omega)
      simp [escape_hex, from_str_radix16, hexNum, h2, hle]
    · simp [escape_hex, from_str_radix16, h2]
  · by_cases h1 : isAsciiHexdigit c1 = true
    · by_cases h2 : isAsciiHexdigit c2 = true
      · rw [escape_hex_of_hexdigits c1 c2 r h1 h2]
        simp [h1, h2]
      · simp [escape_hex, from_str_radix16, hp, h1, h2]
    · simp [escape_hex, from_str_radix16, hp, h1]

theorem escape_hex_invalid_iff_witness :
    decode ('\\' :: 'x' :: 'Z' :: 'Z' :: ([] : List Char)) =
      .error DecodeError.invalidHexChar :=
  (escape_hex_invalid_iff 'Z' 'Z' []).2.2.2 (by rfl)

/-- C9: the run of characters consumed as hex digits by the Unicode escape
sub-parser is all hex digits, is a prefix of the remaining input, and stops
exactly at the first non-hex character, which is left unconsumed for the
closing-brace check: the run is the maximal hex-digit prefix. -/
theorem gatherHex_maximal_run (s : List Char) :
    (gatherHex s).1.all isAsciiHexdigit = true ∧
    (gatherHex s).1 ++ (gatherHex s).2 = s ∧
    (∀ c, (gatherHex s).2.head? = some c → isAsciiHexdigit c = false) ∧
    gatherHex s = (s.takeWhile isAsciiHexdigit, s.dropWhile isAsciiHexdigit) := by
  refine ⟨?_, ?_, ?_, gatherHex_eq s⟩
  · rw [gatherHex_eq]
    exact List.all_takeWhile
  · rw [gatherHex_eq]
    simp
  · intro c hc
    rw [gatherHex_eq] at hc
    have hw := List.head?_dropWhile_not isAsciiHexdigit s
    rw [hc] at hw
    exact hw

theorem gatherHex_maximal_run_witness :
    isAsciiHexdigit 'z' = false ∧ gatherHex ['1', 'z'] = (['1'], ['z']) :=
  ⟨(gatherHex_maximal_run ['1', 'z']).2.2.1 'z' (by decide), by decide⟩

/-- C4: a `\u{H...H}` escape whose hex run is non-empty and denotes a valid
Unicode scalar value (in particular up to and including `0x10FFFF`) appends
exactly one character, the character with that scalar value, and decoding
continues with the input after the closing brace. -/
theorem decode_unicode_escape (run rest : List Char)
    (hne : ¬(run = []))
    (hall : run.all isAsciiHexdigit = true)
    (hval : hexNum run < 55296 ∨ (57343 < hexNum run ∧ hexNum run ≤ 1114111)) :
    decode ('\\' :: 'u' :: '{' :: (run ++ '}' :: rest)) =
      (decode rest).map (fun out => Char.ofNat (hexNum run) :: out) ∧
    (Char.ofNat (hexNum run)).toNat = hexNum run := by
  have hvalid : (hexNum run).isValidChar := by
    rcases hval with h | h
    · exact Or.inl h
    · exact Or.inr ⟨h.1, by omega⟩
  have hdu : decode_unicode ('{' :: (run ++ '}' :: rest)) =
      .ok (Char.ofNat (hexNum run), rest) := by
    rw [decode_unicode.eq_def]
    simp only [if_pos rfl]
    rw [gatherHex_hex_run run '}' rest hall (by decide)]
    simp only [if_pos rfl]
    rw [from_str_radix16_all_hex run 4294967295 hall, if_neg hne,
      if_pos (by omega : hexNum run ≤ 4294967295)]
    simp [charFromU32, hvalid]
  exact ⟨decode_u_ok _ _ hdu, char_toNat_ofNat _ hvalid⟩

theorem decode_unicode_escape_witness :
    decode ('\\' :: 'u' :: '{' ::
        ((['1', '0', 'F', 'F', 'F', 'F'] : List Char) ++ '}' :: ([] : List Char))) =
      (decode ([] : List Char)).map
        (fun out => Char.ofNat (hexNum ['1', '0', 'F', 'F', 'F', 'F']) :: out) ∧
    (Char.ofNat (hexNum ['1', '0', 'F', 'F', 'F', 'F'])).toNat =
      hexNum ['1', '0', 'F', 'F', 'F', 'F'] :=
  decode_unicode_escape ['1', '0', 'F', 'F', 'F', 'F'] []
    (by decide) (by decide) (by decide)

/-- C8: an error is returned verbatim to the caller with no partial output:
an error in the suffix after a backslash-free prefix is the result of the
whole call, and an error raised by the `\x` or `\u` sub-parser is the
result of the call that dispatched to it, whatever input follows. -/
theorem decode_first_error (pre s : List Char) (e : DecodeError) :
    ((∀ c ∈ pre, ¬(c = '\\')) → decode s = .error e → decode (pre ++ s) = .error e) ∧
    (escape_hex s = .error e → decode ('\\' :: 'x' :: s) = .error e) ∧
    (decode_unicode s = .error e → decode ('\\' :: 'u' :: s) = .error e) := by
  refine ⟨fun hpre hs => ?_, decode_x_err s e, decode_u_err s e⟩
  rw [decode_append_plain pre s hpre, hs]
  rfl

theorem decode_first_error_witness :
    decode (['a'] ++ ['\\', 'z']) = .error DecodeError.invalidEscape ∧
    decode ('\\' :: 'x' :: ([] : List Char)) = .error DecodeError.invalidHexChar ∧
    decode ('\\' :: 'u' :: ([] : List Char)) = .error DecodeError.invalidUnicode :=
  ⟨(decode_first_error ['a'] ['\\', 'z'] DecodeError.invalidEscape).1 (by decide)
      decode_backslash_z,
    (decode_first_error [] [] DecodeError.invalidHexChar).2.1 (by rfl),
    (decode_first_error [] [] DecodeError.invalidUnicode).2.2 (by rfl)⟩

/-- C3: the Unicode escape sub-parser fails with `InvalidUnicode` exactly
when the character after `u` is not `{` (or the input ends there), the
character after the hex-digit run is not `}` (or the input ends there), the
digit run is empty, the digit run does not fit an unsigned 32-bit integer,
or the parsed value is a surrogate (0xD800-0xDFFF) or exceeds 0x10FFFF. -/
theorem decode_unicode_invalid_iff (s : List Char) :
    decode_unicode s = .error .invalidUnicode ↔
      (s.head? ≠ some '{' ∨
        (s.tail.dropWhile isAsciiHexdigit).head? ≠ some '}' ∨
        s.tail.takeWhile isAsciiHexdigit = [] ∨
        4294967295 < hexNum (s.tail.takeWhile isAsciiHexdigit) ∨
        (55296 ≤ hexNum (s.tail.takeWhile isAsciiHexdigit) ∧
          hexNum (s.tail.takeWhile isAsciiHexdigit) ≤ 57343) ∨
        1114111 < hexNum (s.tail.takeWhile isAsciiHexdigit)) := by
  match s with
  | [] => simp [decode_unicode]
  | b :: rest =>
    rw [decode_unicode.eq_def]
    by_cases hb : b = '{'
    case neg => simp [hb]
    case pos =>
      subst hb
      simp only [List.head?_cons, List.tail_cons, if_pos rfl, ne_eq, Option.some.injEq,
        not_true_eq_false, false_or]
      rw [gatherHex_eq]
      simp only []
      cases haft : rest.dropWhile isAsciiHexdigit with
      | nil => simp [haft]
      | cons d rest3 =>
        simp only [haft, List.head?_cons, Option.some.injEq]
        by_cases hd : d = '}'
        case neg => simp [hd]
        case pos =>
          subst hd
          simp only [if_pos rfl, not_true_eq_false, false_or]
          rw [from_str_radix16_all_hex (rest.takeWhile isAsciiHexdigit) 4294967295
            List.all_takeWhile]
          by_cases hrun : rest.takeWhile isAsciiHexdigit = []
          case pos => simp [hrun]
          case neg =>
            rw [if_neg hrun]
            by_cases hle : hexNum (rest.takeWhile isAsciiHexdigit) ≤ 4294967295
            case neg =>
              rw [if_neg hle]
              simp only [hrun, false_or]
              constructor
              · intro _
                omega
              · intro _
                rfl
            case pos =>
              rw [if_pos hle]
              by_cases hv : hexNum (rest.takeWhile isAsciiHexdigit) < 55296 ∨
                  (57343 < hexNum (rest.takeWhile isAsciiHexdigit) ∧
                    hexNum (rest.takeWhile isAsciiHexdigit) < 1114112)
              case pos =>
                simp only [charFromU32, if_pos hv]
                simp only [hrun, false_or]
                constructor
                · intro h
                  cases h
                · intro h
                  omega
              case neg =>
                simp only [charFromU32, if_neg hv]
                simp only [hrun, false_or]
                constructor
                · intro _
                  omega
                · intro _
                  rfl

/-- C10: decoding never lengthens the text: whenever `decode` succeeds the
output has at most as many characters as the input, and the empty input
yields the empty string. -/
theorem decode_output_not_longer (s out : List Char) :
    (decode s = .ok out → out.length ≤ s.length) ∧ decode ([] : List Char) = .ok [] := by
  refine ⟨?_, decode_nil_eq⟩
  have main : ∀ t : List Char, ∀ o : List Char, decode t = .ok o → o.length ≤ t.length := by
    intro t
    induction t using decode.induct
    case case1 =>
      intro o h
      rw [decode_nil_eq] at h
      cases h
      simp
    case case2 =>
      intro o h
      rw [decode.eq_def] at h
      simp at h
    case case3 =>
      rename_i rest ih
      intro o h
      rw [decode_tag_t] at h
      obtain ⟨o1, ho1, rfl⟩ := map_cons_eq_ok _ _ _ h
      have := ih o1 ho1
      simp only [List.length_cons]
      omega
    case case4 =>
      rename_i rest ih
      intro o h
      rw [decode_tag_n] at h
      obtain ⟨o1, ho1, rfl⟩ := map_cons_eq_ok _ _ _ h
      have := ih o1 ho1
      simp only [List.length_cons]
      omega
    case case5 =>
      rename_i rest ih
      intro o h
      rw [decode_tag_r] at h
      obtain ⟨o1, ho1, rfl⟩ := map_cons_eq_ok _ _ _ h
      have := ih o1 ho1
      simp only [List.length_cons]
      omega
    case case6 =>
      rename_i rest ih
      intro o h
      rw [decode_tag_zero] at h
      obtain ⟨o1, ho1, rfl⟩ := map_cons_eq_ok _ _ _ h
      have := ih o1 ho1
      simp only [List.length_cons]
      omega
    case case7 =>
      rename_i rest ih
      intro o h
      rw [decode_tag_backslash] at h
      obtain ⟨o1, ho1, rfl⟩ := map_cons_eq_ok _ _ _ h
      have := ih o1 ho1
      simp only [List.length_cons]
      omega
    case case8 =>
      rename_i rest ih
      intro o h
      rw [decode_tag_dquote] at h
      obtain ⟨o1, ho1, rfl⟩ := map_cons_eq_ok _ _ _ h
      have := ih o1 ho1
      simp only [List.length_cons]
      omega
    case case9 =>
      rename_i rest ih
      intro o h
      rw [decode_tag_squote] at h
      obtain ⟨o1, ho1, rfl⟩ := map_cons_eq_ok _ _ _ h
      have := ih o1 ho1
      simp only [List.length_cons]
      omega
    case case10 =>
      rename_i rest p hx h1 h2 h3 h4 h5 h6 h7 ih
      intro o h
      rw [decode_x_ok _ _ hx] at h
      obtain ⟨o1, ho1, rfl⟩ := map_cons_eq_ok _ _ _ h
      have hrest := escape_hex_length _ _ hx
      have := ih o1 ho1
      simp only [List.length_cons]
      omega
    case case11 =>
      rename_i rest e hx h1 h2 h3 h4 h5 h6 h7
      intro o h
      rw [decode_x_err _ _ hx] at h
      cases h
    case case12 =>
      rename_i rest p hu h1 h2 h3 h4 h5 h6 h7 h8 ih
      intro o h
      rw [decode_u_ok _ _ hu] at h
      obtain ⟨o1, ho1, rfl⟩ := map_cons_eq_ok _ _ _ h
      have hrest := decode_unicode_length _ _ hu
      have := ih o1 ho1
      simp only [List.length_cons]
      omega
    case case13 =>
      rename_i rest e hu h1 h2 h3 h4 h5 h6 h7 h8
      intro o h
      rw [decode_u_err _ _ hu] at h
      cases h
    case case14 =>
      rename_i c rest h1 h2 h3 h4 h5 h6 h7 h8 h9
      intro o h
      rw [decode_bad_tag c rest h1 h2 h3 h4 h5 h6 h7 h8 h9] at h
      cases h
    case case15 =>
      rename_i c rest hc ih
      intro o h
      rw [decode_cons_plain c rest hc] at h
      obtain ⟨o1, ho1, rfl⟩ := map_cons_eq_ok _ _ _ h
      have := ih o1 ho1
      simp only [List.length_cons]
      omega
  exact main s out

theorem decode_output_not_longer_witness :
    (['a'] : List Char).length ≤ (['a'] : List Char).length ∧
    decode ([] : List Char) = .ok [] :=
  ⟨(decode_output_not_longer ['a'] ['a']).1 decode_single_a,
    (decode_output_not_longer [] []).2⟩

end UnicodeEscape
